import Mathlib

/-!
Shallow embedding of the investing-simulator core
(src/helper.py and src/app_investing_simulator.py).

Conventions of the embedding:
* Python `datetime.date` values become the `Date` structure below; Python
  compares dates lexicographically on (year, month, day), which on valid
  dates (month between 1 and 12) coincides with the (monthIdx, day)
  lexicographic order used here.
* Monetary quantities and prices are rationals; the Python `round(x, 2)`
  on floats is modelled by `round2` (round to the nearest cent).  Python
  rounds half-cents to even; the two roundings agree away from exact
  half-cent ties, and every concrete value appearing in a theorem below
  is away from a tie.
* Code that raises an exception is modelled with `Except`; the error
  string names the Python exception the source would raise.
* The currency-conversion collaborator (the CurrencyConverter object) is
  out of scope per the spec and is passed in as an abstract function
  `Conv`.
-/

/-- Calendar date, mirroring `datetime.date` (year, month, day). -/
structure Date where
  year : Int
  month : Int
  day : Int
deriving DecidableEq

/-- Linearisation of (year, month): 12 * year + month. -/
def monthIdx (dt : Date) : Int := 12 * dt.year + dt.month

instance : LE Date := ⟨fun a b =>
  monthIdx a < monthIdx b ∨ (monthIdx a = monthIdx b ∧ a.day ≤ b.day)⟩

instance : LT Date := ⟨fun a b =>
  monthIdx a < monthIdx b ∨ (monthIdx a = monthIdx b ∧ a.day < b.day)⟩

theorem date_le_def (a b : Date) :
    a ≤ b ↔ monthIdx a < monthIdx b ∨ (monthIdx a = monthIdx b ∧ a.day ≤ b.day) :=
  Iff.rfl

theorem date_lt_def (a b : Date) :
    a < b ↔ monthIdx a < monthIdx b ∨ (monthIdx a = monthIdx b ∧ a.day < b.day) :=
  Iff.rfl

instance (a b : Date) : Decidable (a ≤ b) :=
  inferInstanceAs (Decidable (monthIdx a < monthIdx b ∨ (monthIdx a = monthIdx b ∧ a.day ≤ b.day)))

instance (a b : Date) : Decidable (a < b) :=
  inferInstanceAs (Decidable (monthIdx a < monthIdx b ∨ (monthIdx a = monthIdx b ∧ a.day < b.day)))

/-- Gregorian leap-year test. -/
def isLeap (y : Int) : Bool :=
  (y.emod 4 == 0 && !(y.emod 100 == 0)) || y.emod 400 == 0

/-- Number of days in a month of a given year. -/
def daysInMonth (y m : Int) : Int :=
  if m = 2 then (if isLeap y then 29 else 28)
  else if m = 4 ∨ m = 6 ∨ m = 9 ∨ m = 11 then 30
  else 31

theorem daysInMonth_ge (y m : Int) : 28 ≤ daysInMonth y m := by
  unfold daysInMonth
  split
  · split <;> omega
  · split <;> omega

/-- `dateutil.relativedelta` month arithmetic: shift by `k` calendar months,
clamping the day to the length of the target month. -/
def addMonths (dt : Date) (k : Int) : Date :=
  let i := monthIdx dt + k
  let y := Int.fdiv (i - 1) 12
  let m := i - 12 * y
  ⟨y, m, min dt.day (daysInMonth y m)⟩

theorem monthIdx_addMonths (dt : Date) (k : Int) :
    monthIdx (addMonths dt k) = monthIdx dt + k := by
  simp only [addMonths, monthIdx]
  ring

theorem addMonths_day (dt : Date) (k : Int) (h : dt.day ≤ 28) :
    (addMonths dt k).day = dt.day := by
  simp only [addMonths]
  have := daysInMonth_ge (Int.fdiv (monthIdx dt + k - 1) 12)
    (monthIdx dt + k - 12 * Int.fdiv (monthIdx dt + k - 1) 12)
  omega

/-- Days since 1970-01-01 of a civil date (standard civil-calendar
conversion, floor divisions). -/
def toDays (dt : Date) : Int :=
  let y := if dt.month ≤ 2 then dt.year - 1 else dt.year
  let era := Int.fdiv y 400
  let yoe := y - era * 400
  let mp := if dt.month ≤ 2 then dt.month + 9 else dt.month - 3
  let doy := Int.fdiv (153 * mp + 2) 5 + dt.day - 1
  let doe := yoe * 365 + Int.fdiv yoe 4 - Int.fdiv yoe 100 + doy
  era * 146097 + doe - 719468

/-- Civil date from days since 1970-01-01 (inverse of `toDays`). -/
def fromDays (z0 : Int) : Date :=
  let z := z0 + 719468
  let era := Int.fdiv z 146097
  let doe := z - era * 146097
  let yoe := Int.fdiv (doe - Int.fdiv doe 1460 + Int.fdiv doe 36524 - Int.fdiv doe 146096) 365
  let y := yoe + era * 400
  let doy := doe - (365 * yoe + Int.fdiv yoe 4 - Int.fdiv yoe 100)
  let mp := Int.fdiv (5 * doy + 2) 153
  let d := doy - Int.fdiv (153 * mp + 2) 5 + 1
  let m := if mp < 10 then mp + 3 else mp - 9
  ⟨if m ≤ 2 then y + 1 else y, m, d⟩

/-- `dateutil.relativedelta` day arithmetic: subtract `n` days. -/
def subDays (dt : Date) (n : Int) : Date := fromDays (toDays dt - n)

/-- Python `max` on two dates (returns the first argument on ties). -/
def dateMax (a b : Date) : Date := if b ≤ a then a else b

/-- Minimum of a list of dates (`df.min()` in pandas); junk on the
empty list, which the callers below never rely on. -/
def listMinDate : List Date → Date
  | [] => ⟨0, 1, 1⟩
  | x :: xs => xs.foldl (fun a b => if b < a then b else a) x

/-- Maximum of a list of dates. -/
def listMaxDate : List Date → Date
  | [] => ⟨0, 1, 1⟩
  | x :: xs => xs.foldl (fun a b => if a < b then b else a) x

/-- Python `round(x, 2)`: round to the nearest hundredth, here half-up.
Python rounds half-cents to even; the two agree away from exact
half-cent ties, and every concrete value appearing below is away from a
tie. -/
def round2 (q : ℚ) : ℚ := ((⌊q * 100 + 1 / 2⌋ : ℤ) : ℚ) / 100

instance {ε α : Type} [DecidableEq ε] [DecidableEq α] : DecidableEq (Except ε α) := fun x y =>
  match x, y with
  | Except.error a, Except.error b =>
      decidable_of_iff (a = b) ⟨fun h => h ▸ rfl, fun h => by injection h⟩
  | Except.ok a, Except.ok b =>
      decidable_of_iff (a = b) ⟨fun h => h ▸ rfl, fun h => by injection h⟩
  | Except.error _, Except.ok _ => isFalse (fun h => Except.noConfusion h)
  | Except.ok _, Except.error _ => isFalse (fun h => Except.noConfusion h)

/-! ## Date Scheduler (`helper.is_investment_day_valid`)

The Python loop

```
while not is_date_correct and potential_start_date <= date_end:
    potential_start_date += relativedelta(months=1)
    is_date_correct = date_start <= potential_start_date <= date_end
```

is embedded with an explicit fuel so that non-termination would be
observable as `none`; `is_investment_day_valid` supplies enough fuel,
and the C10 theorem proves `none` is never returned.
-/

def schedLoop (ds de : Date) : Nat → Date → Option (Bool × Date)
  | 0, p =>
    if ds ≤ p ∧ p ≤ de then some (true, p)
    else if p ≤ de then none
    else some (false, p)
  | Nat.succ f, p =>
    if ds ≤ p ∧ p ≤ de then some (true, p)
    else if p ≤ de then schedLoop ds de f (addMonths p 1)
    else some (false, p)

/-- `helper.is_investment_day_valid`: starting from the investment day in
the month of the start date, advance month by month while the candidate
is not inside the range and does not exceed the end date; return the
validity flag together with the final candidate date. -/
def is_investment_day_valid (iday : Int) (ds de : Date) : Option (Bool × Date) :=
  schedLoop ds de ((monthIdx de - monthIdx ds).toNat + 1) ⟨ds.year, ds.month, iday⟩

/-- Failure signal of the Date Scheduler. -/
inductive ScheduleError where
  | invalidSchedule : ScheduleError
deriving DecidableEq

/-- Modelled from the spec: the caller that raises `InvalidScheduleError`
when the validity flag returned by `is_investment_day_valid` is false is
not part of src (the helper only returns the flag, and the app file in
src uses the frequency mode, not the day-of-month mode). Per spec 4.1 a
false flag becomes the failure, a true flag yields the start date. -/
def scheduleStartDate (iday : Int) (ds de : Date) : Except ScheduleError Date :=
  match is_investment_day_valid iday ds de with
  | some (true, p) => Except.ok p
  | _ => Except.error ScheduleError.invalidSchedule

/-! ## Market data and the Execution Resolver
(src/app_investing_simulator.py lines 198-228) -/

/-- One daily record of a PriceSeries (one row of the yfinance frame). -/
structure PriceRec where
  date : Date
  openPrice : ℚ
  closePrice : ℚ
  dividend : ℚ
deriving DecidableEq

/-- The currency-conversion collaborator:
`convert(amount, currency, new_currency, date)`. -/
def Conv : Type := ℚ → String → String → Date → ℚ

/-- Execution resolution for one nominal date against one price series:
if the nominal date is a market-open date, buy at that day at its open
(`is_market_open` branch); otherwise buy at the first row whose date is
strictly later (`next_market_open` branch); `none` when no such row
exists (the source then warns and breaks). -/
def resolveExec (series : List PriceRec) (d : Date) : Option (Date × ℚ) :=
  match series.find? (fun r => decide (r.date = d)) with
  | some r => some (d, r.openPrice)
  | none =>
    match series.find? (fun r => decide (d < r.date)) with
    | some r => some (r.date, r.openPrice)
    | none => none

/-- One row of the transactions table (`rows.append(row)` in the source,
columns of `df_investments`). -/
structure TxRow where
  purchaseDate : Date
  symbol : String
  quoteType : String
  origCurrency : String
  sharesBought : ℚ
  priceOrig : ℚ
  priceConv : ℚ
  investedCapital : ℚ
deriving DecidableEq

/-- Static parameters of one simulation run. `prices` maps a symbol to
its downloaded series (empty list = no data found for the symbol, the
`continue` branch); `curOf` and `qtOf` are the per-symbol metadata from
the market-data collaborator. -/
structure Cfg where
  conv : Conv
  amount : ℚ
  base : String
  curOf : String → String
  qtOf : String → String
  prices : String → List PriceRec

/-- Buy-price currency conversion (source lines 230-240): identity
short-circuit when the security currency equals the base currency,
otherwise delegate to the collaborator. -/
def buyPriceConverted (conv : Conv) (p : ℚ) (cur base : String) (d : Date) : ℚ :=
  if cur = base then p else conv p cur base d

/-- Build one transaction row exactly as the eight `row.append` calls do. -/
def mkTx (c : Cfg) (s : String) (ed : Date) (p : ℚ) : TxRow :=
  let pc := buyPriceConverted c.conv p (c.curOf s) c.base ed
  { purchaseDate := ed
    symbol := s
    quoteType := c.qtOf s
    origCurrency := c.curOf s
    sharesBought := c.amount / pc
    priceOrig := p
    priceConv := pc
    investedCapital := c.amount }

/-- The inner `for symbol in sorted(symbols)` loop at one nominal date:
a symbol with no downloaded data is skipped (`continue`); a symbol whose
series has no trading day at or after the date stops the whole loop
(`break`), dropping every remaining symbol at this date. -/
def processDate (c : Cfg) (d : Date) : List String → List TxRow
  | [] => []
  | s :: rest =>
    if c.prices s = [] then processDate c d rest
    else
      match resolveExec (c.prices s) d with
      | some (ed, p) => mkTx c s ed p :: processDate c d rest
      | none => []

/-- The outer `while current_investment_date <= date_end` loop over the
scheduled nominal dates (the Date Scheduler output). -/
def simulate (c : Cfg) (syms : List String) : List Date → List TxRow
  | [] => []
  | d :: ds => processDate c d syms ++ simulate c syms ds

/-! ## Daily deduplication and the final transactions table
(src/app_investing_simulator.py lines 310-318) -/

/-- `df.drop_duplicates(['Purchase Date', 'Symbol'])` with the default
keep-first policy: drop every row whose (purchase date, symbol) key was
already seen. -/
def dedupByKey : List TxRow → List (Date × String) → List TxRow
  | [], _ => []
  | r :: rs, seen =>
    if (r.purchaseDate, r.symbol) ∈ seen then dedupByKey rs seen
    else r :: dedupByKey rs ((r.purchaseDate, r.symbol) :: seen)

/-- Sort key of `df.sort_values(['Purchase Date', 'Symbol'])`. -/
def rowBefore (a b : TxRow) : Bool :=
  decide (a.purchaseDate < b.purchaseDate) ||
    (decide (a.purchaseDate = b.purchaseDate) && !(compare a.symbol b.symbol == Ordering.gt))

def insertSorted (r : TxRow) : List TxRow → List TxRow
  | [] => [r]
  | x :: xs => if rowBefore r x then r :: x :: xs else x :: insertSorted r xs

def sortRows : List TxRow → List TxRow
  | [] => []
  | x :: xs => insertSorted x (sortRows xs)

/-- The final transactions table: dedup by (purchase date, symbol) under
Daily frequency only, then sort by (purchase date, symbol). -/
def finalizeTable (freq : String) (rows : List TxRow) : List TxRow :=
  sortRows (if freq = "Daily" then dedupByKey rows [] else rows)

/-! ## Valuation Engine (`helper.get_values_to_date`) -/

/-- One row of the development frame as consumed by
`get_values_to_date` (date, symbol, close price). -/
structure DevInRow where
  date : Date
  symbol : String
  closePrice : ℚ
deriving DecidableEq

/-- The mask `is_prior_date & is_same_symbol` applied to the
transactions table. -/
def pastData (invs : List TxRow) (r : DevInRow) : List TxRow :=
  invs.filter (fun t => decide (t.purchaseDate ≤ r.date) && decide (t.symbol = r.symbol))

/-- `helper.get_values_to_date`: cumulative shares, rounded cumulative
capital, rounded market value from the converted close price, gain, and
rounded percentage return. The close-price conversion always calls the
collaborator (no identity short-circuit in the helper), with the
currency of the first past transaction. On a row with no past
transaction of its symbol, `.iloc[0]` raises; `Except.error` models that
IndexError. -/
def get_values_to_date (conv : Conv) (r : DevInRow) (invs : List TxRow) (base : String) :
    Except String (ℚ × ℚ × ℚ × ℚ × ℚ) :=
  let past := pastData invs r
  let numShares := (past.map (fun t => t.sharesBought)).sum
  let cap := round2 ((past.map (fun t => t.investedCapital)).sum)
  if past.isEmpty then Except.error "IndexError"
  else
    let t := past.headD ⟨⟨0, 1, 1⟩, "", "", "", 0, 0, 0, 0⟩
    let closeConv := conv r.closePrice t.origCurrency base r.date
    let value := round2 (numShares * closeConv)
    let gain := value - cap
    let profit := round2 ((gain / cap) * 100)
    Except.ok (numShares, cap, value, gain, profit)

/-! ## Dividend conversion (`helper.convert_dividends`) -/

/-- One dividend row (date, symbol, dividend per share in the original
currency). -/
structure DivRow where
  date : Date
  symbol : String
  dividendPerShare : ℚ
deriving DecidableEq

/-- `helper.convert_dividends`: look up the original currency from the
first transaction of the symbol (IndexError if there is none), then
always call the collaborator and round to two decimals. -/
def convert_dividends (conv : Conv) (r : DivRow) (base : String) (invs : List TxRow) :
    Except String (String × ℚ) :=
  let sameSym := invs.filter (fun t => decide (r.symbol = t.symbol))
  if sameSym.isEmpty then Except.error "IndexError"
  else
    let t := sameSym.headD ⟨⟨0, 1, 1⟩, "", "", "", 0, 0, 0, 0⟩
    Except.ok (t.origCurrency, round2 (conv r.dividendPerShare t.origCurrency base r.date))

/-! ## Metric Calculator (`helper.calculate_development_metric`) -/

/-- One row of the (grouped) development frame as consumed by the
metric calculator: date, unrealised gain/loss to date, percentage
return. -/
structure DevRow where
  date : Date
  gain : ℚ
  pct : ℚ
deriving DecidableEq

/-- The eight fixed window labels. -/
inductive Metric where
  | D1 | W1 | M1 | M6 | YTD | Y1 | Y5 | MAX
deriving DecidableEq

/-- The `last_dates` dictionary: every entry except YTD and MAX is
anchored at `today` (the wall-clock date captured at module import),
not at any date of the series; YTD is January 1 of the current year
clamped to the earliest series date; MAX is the earliest series date. -/
def lastDates (today minDate : Date) : Metric → Date
  | Metric.D1 => subDays today 1
  | Metric.W1 => subDays today 7
  | Metric.M1 => addMonths today (-1)
  | Metric.M6 => addMonths today (-6)
  | Metric.YTD => dateMax ⟨today.year, 1, 1⟩ minDate
  | Metric.Y1 => addMonths today (-12)
  | Metric.Y5 => addMonths today (-60)
  | Metric.MAX => minDate

/-- Result of one metric: the not-applicable sentinel (the string `-`
in the source) or a numeric figure; the `:.2f` formatting of the source
is abstracted to rounding to two decimals. -/
inductive MetricVal where
  | na : MetricVal
  | num : ℚ → MetricVal
deriving DecidableEq

/-- `helper.calculate_development_metric` for one window label; `today`
is the module-level `datetime.now()` of the source, passed explicitly.
The base-currency argument of the source only selects column names and
is dropped. -/
def calculate_development_metric (today : Date) (m : Metric) (df : List DevRow) :
    MetricVal × MetricVal :=
  let minDate := listMinDate (df.map (fun r => r.date))
  let cutoff := lastDates today minDate m
  let dfBefore := df.filter (fun r => decide (r.date ≤ cutoff))
  if dfBefore.isEmpty then (MetricVal.na, MetricVal.na)
  else
    let dflt : DevRow := ⟨⟨0, 1, 1⟩, 0, 0⟩
    let lastRow := df.getLastD dflt
    let beforeRow := dfBefore.getLastD dflt
    (MetricVal.num (round2 (lastRow.gain - beforeRow.gain)),
     MetricVal.num (round2 (lastRow.pct - beforeRow.pct)))

/-- The cutoff dates as the spec words them (for comparison with
`lastDates`): anchored at the latest date of the series, YTD at
January 1 of the year of the latest date, clamped to the earliest
date; MAX at the earliest date. -/
def specLastDates (latest minDate : Date) : Metric → Date
  | Metric.D1 => subDays latest 1
  | Metric.W1 => subDays latest 7
  | Metric.M1 => addMonths latest (-1)
  | Metric.M6 => addMonths latest (-6)
  | Metric.YTD => dateMax ⟨latest.year, 1, 1⟩ minDate
  | Metric.Y1 => addMonths latest (-12)
  | Metric.Y5 => addMonths latest (-60)
  | Metric.MAX => minDate

/-- The metric as the spec words it (for comparison with
`calculate_development_metric`): cutoff from `specLastDates`, metric =
figures at the latest date minus figures at the last date at or before
the cutoff. -/
def specDevelopmentMetric (m : Metric) (df : List DevRow) : MetricVal × MetricVal :=
  let minDate := listMinDate (df.map (fun r => r.date))
  let latest := listMaxDate (df.map (fun r => r.date))
  let cutoff := specLastDates latest minDate m
  let dfBefore := df.filter (fun r => decide (r.date ≤ cutoff))
  if dfBefore.isEmpty then (MetricVal.na, MetricVal.na)
  else
    let dflt : DevRow := ⟨⟨0, 1, 1⟩, 0, 0⟩
    let lastRow := df.getLastD dflt
    let beforeRow := dfBefore.getLastD dflt
    (MetricVal.num (round2 (lastRow.gain - beforeRow.gain)),
     MetricVal.num (round2 (lastRow.pct - beforeRow.pct)))

/-! ## Order lemmas for dates -/

theorem date_le_refl (a : Date) : a ≤ a := by
  rw [date_le_def]; omega

theorem date_le_trans {a b c : Date} (h1 : a ≤ b) (h2 : b ≤ c) : a ≤ c := by
  rw [date_le_def] at h1 h2 ⊢; omega

theorem date_lt_irrefl (a : Date) : ¬ a < a := by
  rw [date_lt_def]; omega

theorem date_lt_trans {a b c : Date} (h1 : a < b) (h2 : b < c) : a < c := by
  rw [date_lt_def] at h1 h2 ⊢; omega

theorem date_le_of_lt {a b : Date} (h : a < b) : a ≤ b := by
  rw [date_lt_def] at h; rw [date_le_def]; omega

theorem date_lt_of_le_of_lt {a b c : Date} (h1 : a ≤ b) (h2 : b < c) : a < c := by
  rw [date_le_def] at h1; rw [date_lt_def] at h2 ⊢; omega

theorem date_lt_of_lt_of_le {a b c : Date} (h1 : a < b) (h2 : b ≤ c) : a < c := by
  rw [date_lt_def] at h1; rw [date_le_def] at h2; rw [date_lt_def]; omega

/-- A date whose month field is between 1 and 12, as every
`datetime.date` of the source is. -/
def validMonth (x : Date) : Prop := 1 ≤ x.month ∧ x.month ≤ 12

instance (x : Date) : Decidable (validMonth x) :=
  inferInstanceAs (Decidable (1 ≤ x.month ∧ x.month ≤ 12))

/-- On dates with valid months the order is antisymmetric, so a weak
inequality together with structural inequality gives a strict one. -/
theorem date_lt_of_le_of_ne {a b : Date} (ha : validMonth a) (hb : validMonth b)
    (h1 : a ≤ b) (h2 : a ≠ b) : a < b := by
  rw [date_le_def] at h1
  rw [date_lt_def]
  rcases h1 with h | ⟨hm, hd⟩
  · exact Or.inl h
  · rcases lt_or_eq_of_le hd with hlt | heq
    · exact Or.inr ⟨hm, hlt⟩
    · exfalso
      apply h2
      have hy : a.year = b.year ∧ a.month = b.month := by
        rcases ha with ⟨ha1, ha2⟩
        rcases hb with ⟨hb1, hb2⟩
        simp only [monthIdx] at hm
        omega
      cases a; cases b
      simp_all

/-! ## C1: Execution Resolver -/

theorem resolveExec_find_eq (d : Date) :
    ∀ (series : List PriceRec),
      List.Pairwise (fun a b => a.date < b.date) series →
      ∀ r ∈ series, r.date = d →
      series.find? (fun x => decide (x.date = d)) = some r := by
  intro series
  induction series with
  | nil => intro _ r hr _; simp at hr
  | cons a as ih =>
    intro hp r hr hrd
    rcases List.mem_cons.mp hr with h | h
    · subst h
      exact List.find?_cons_of_pos _ (by simp [hrd])
    · have ha : a.date < r.date := (List.pairwise_cons.mp hp).1 r h
      have hne : ¬ (a.date = d) := by
        intro e
        rw [← hrd] at e
        rw [e] at ha
        exact date_lt_irrefl _ ha
      rw [List.find?_cons_of_neg _ (by simp [hne])]
      exact ih (List.pairwise_cons.mp hp).2 r h hrd

theorem resolveExec_find_gt (d : Date) :
    ∀ (series : List PriceRec),
      List.Pairwise (fun a b => a.date < b.date) series →
      ∀ r0 ∈ series, d < r0.date →
      (∀ x ∈ series, d < x.date → r0.date ≤ x.date) →
      series.find? (fun x => decide (d < x.date)) = some r0 := by
  intro series
  induction series with
  | nil => intro _ r0 hr0; simp at hr0
  | cons a as ih =>
    intro hp r0 hr0 hd hmin
    by_cases hda : d < a.date
    · rw [List.find?_cons_of_pos _ (by simp [hda])]
      rcases List.mem_cons.mp hr0 with h | h
      · rw [h]
      · exfalso
        have h1 : a.date < r0.date := (List.pairwise_cons.mp hp).1 r0 h
        have h2 : r0.date ≤ a.date := hmin a (List.mem_cons_self a as) hda
        exact date_lt_irrefl _ (date_lt_of_lt_of_le h1 h2)
    · rw [List.find?_cons_of_neg _ (by simp [hda])]
      rcases List.mem_cons.mp hr0 with h | h
      · exfalso; rw [h] at hd; exact hda hd
      · exact ih (List.pairwise_cons.mp hp).2 r0 h hd
          (fun x hx hdx => hmin x (List.mem_cons_of_mem a hx) hdx)

/-- C1: for a price series sorted by date, if the nominal date is a
trading day of the series then the execution date is the nominal date
and the buy price is the open of that day; otherwise the execution
resolves to the first trading day strictly after the nominal date at
the open of that day. -/
theorem c1_execution_resolution (series : List PriceRec) (d : Date)
    (hsorted : List.Pairwise (fun a b => a.date < b.date) series) :
    (∀ r ∈ series, r.date = d → resolveExec series d = some (d, r.openPrice)) ∧
    ((∀ r ∈ series, r.date ≠ d) →
      ∀ r0 ∈ series, d < r0.date → (∀ x ∈ series, d < x.date → r0.date ≤ x.date) →
      resolveExec series d = some (r0.date, r0.openPrice)) := by
  constructor
  · intro r hr hrd
    unfold resolveExec
    rw [resolveExec_find_eq d series hsorted r hr hrd]
  · intro hnone r0 hr0 hd hmin
    unfold resolveExec
    have h1 : series.find? (fun x => decide (x.date = d)) = none := by
      apply List.find?_eq_none.mpr
      intro x hx
      simp [hnone x hx]
    rw [h1, resolveExec_find_gt d series hsorted r0 hr0 hd hmin]

/-- The price series of the spec example: trading days Jan 2, Jan 3 and
Jan 6 of 2025 (Jan 4 and Jan 5 are a closed weekend). -/
def c1series : List PriceRec :=
  [⟨⟨2025, 1, 2⟩, 10, 10, 0⟩, ⟨⟨2025, 1, 3⟩, 11, 11, 0⟩, ⟨⟨2025, 1, 6⟩, 12, 12, 0⟩]

/-- Witness for C1 at the spec example: nominal date Jan 4 resolves to
Jan 6 at the Jan 6 open. -/
theorem c1_witness :
    List.Pairwise (fun a b => a.date < b.date) c1series ∧
    resolveExec c1series ⟨2025, 1, 4⟩ = some (⟨2025, 1, 6⟩, 12) := by
  refine ⟨by decide, ?_⟩
  exact (c1_execution_resolution c1series ⟨2025, 1, 4⟩ (by decide)).2
    (by decide) ⟨⟨2025, 1, 6⟩, 12, 12, 0⟩ (by decide) (by decide) (by decide)

/-! ## C3: behaviour of the symbol loop when a series is exhausted -/

theorem processDate_symbols (c : Cfg) (d : Date) :
    ∀ (syms : List String), ∀ r ∈ processDate c d syms, r.symbol ∈ syms := by
  intro syms
  induction syms with
  | nil => intro r hr; simp [processDate] at hr
  | cons s rest ih =>
    intro r hr
    by_cases hempty : c.prices s = []
    · simp only [processDate, if_pos hempty] at hr
      exact List.mem_cons_of_mem s (ih r hr)
    · simp only [processDate, if_neg hempty] at hr
      cases hres : resolveExec (c.prices s) d with
      | none => rw [hres] at hr; simp at hr
      | some ep =>
        rw [hres] at hr
        rcases List.mem_cons.mp hr with h | h
        · rw [h]; simp [mkTx]
        · exact List.mem_cons_of_mem s (ih r h)

theorem processDate_break (c : Cfg) (d : Date) (s : String) (post : List String)
    (hne : c.prices s ≠ []) (hnone : resolveExec (c.prices s) d = none) :
    ∀ (pre : List String), processDate c d (pre ++ s :: post) = processDate c d pre := by
  intro pre
  induction pre with
  | nil =>
    simp only [List.nil_append, processDate, if_neg hne, hnone]
  | cons t pre' ih =>
    by_cases hempty : c.prices t = []
    · simp only [List.cons_append, processDate, if_pos hempty]
      exact ih
    · simp only [List.cons_append, processDate, if_neg hempty]
      cases hres : resolveExec (c.prices t) d with
      | none => rfl
      | some ep =>
        cases ep with
        | mk ed p =>
          show mkTx c t ed p :: processDate c d (pre' ++ s :: post) =
            mkTx c t ed p :: processDate c d pre'
          rw [ih]

/-- C3 (amended): when the price series of a symbol is non-empty but has
no trading day at or after a nominal date, the symbol loop at that date
reports no transaction for that symbol and terminates without error, the
symbols processed before it keep their transactions, but every symbol
after it in the sorted order is skipped for that date (the `break`
branch); the loop then moves on to the remaining nominal dates, which
are processed independently. -/
theorem c3_unresolvable_isolation (c : Cfg) (d : Date) (s : String)
    (pre post : List String) (ds : List Date)
    (hne : c.prices s ≠ []) (hnone : resolveExec (c.prices s) d = none) :
    processDate c d (pre ++ s :: post) = processDate c d pre ∧
    (s ∉ pre → ∀ r ∈ processDate c d (pre ++ s :: post), ¬ r.symbol = s) ∧
    simulate c (pre ++ s :: post) (d :: ds) =
      processDate c d pre ++ simulate c (pre ++ s :: post) ds := by
  refine ⟨processDate_break c d s post hne hnone pre, ?_, ?_⟩
  · intro hs r hr heq
    rw [processDate_break c d s post hne hnone pre] at hr
    have := processDate_symbols c d pre r hr
    rw [heq] at this
    exact hs this
  · show processDate c d (pre ++ s :: post) ++ simulate c (pre ++ s :: post) ds = _
    rw [processDate_break c d s post hne hnone pre]

/-- Concrete two-symbol run for C3: symbol A has data only on Jan 2,
symbol B only on Jan 6; the nominal date is Jan 4. -/
def c3cfg : Cfg :=
  ⟨fun a _ _ _ => a, 100, "USD", fun _ => "USD", fun _ => "EQUITY",
    fun s => if s = "A" then [⟨⟨2025, 1, 2⟩, 10, 10, 0⟩]
      else if s = "B" then [⟨⟨2025, 1, 6⟩, 12, 12, 0⟩] else []⟩

/-- Counterexample to C3 as stated: at nominal date Jan 4 the series of
A is exhausted, and although the series of B resolves (to Jan 6), the
loop produces no transaction at all at that date, so the processing of
the other security at that nominal date is aborted, contrary to the
claim. -/
theorem c3_counterexample :
    processDate c3cfg ⟨2025, 1, 4⟩ ["A", "B"] = [] ∧
    c3cfg.prices "A" ≠ [] ∧
    resolveExec (c3cfg.prices "A") ⟨2025, 1, 4⟩ = none ∧
    resolveExec (c3cfg.prices "B") ⟨2025, 1, 4⟩ = some (⟨2025, 1, 6⟩, 12) := by
  refine ⟨by decide, by decide, by decide, by decide⟩

/-- Witness for the amended C3: with B sorted before A, the break at A
leaves the transaction of B at that date intact, and the later nominal
date Jan 7 is still processed. -/
theorem c3_witness :
    (c3cfg.prices "A" ≠ [] ∧ resolveExec (c3cfg.prices "A") ⟨2025, 1, 4⟩ = none) ∧
    (processDate c3cfg ⟨2025, 1, 4⟩ (["B"] ++ "A" :: []) = processDate c3cfg ⟨2025, 1, 4⟩ ["B"] ∧
      ("A" ∉ ["B"] → ∀ r ∈ processDate c3cfg ⟨2025, 1, 4⟩ (["B"] ++ "A" :: []), ¬ r.symbol = "A") ∧
      simulate c3cfg (["B"] ++ "A" :: []) (⟨2025, 1, 4⟩ :: [⟨2025, 1, 7⟩]) =
        processDate c3cfg ⟨2025, 1, 4⟩ ["B"] ++
          simulate c3cfg (["B"] ++ "A" :: []) [⟨2025, 1, 7⟩]) :=
  ⟨⟨by decide, by decide⟩,
    c3_unresolvable_isolation c3cfg ⟨2025, 1, 4⟩ "A" ["B"] [] [⟨2025, 1, 7⟩]
      (by decide) (by decide)⟩

/-! ## C4: zero-capital pairs -/

theorem resolveExec_head (r0 : PriceRec) (rest : List PriceRec) (d : Date)
    (hsorted : List.Pairwise (fun a b => a.date < b.date) (r0 :: rest))
    (hge : ∀ x ∈ r0 :: rest, d ≤ x.date)
    (hvd : validMonth d) (hv0 : validMonth r0.date) :
    resolveExec (r0 :: rest) d = some (r0.date, r0.openPrice) := by
  by_cases heq : r0.date = d
  · unfold resolveExec
    rw [resolveExec_find_eq d (r0 :: rest) hsorted r0 (List.mem_cons_self r0 rest) heq]
    rw [heq]
  · have hlt : d < r0.date :=
      date_lt_of_le_of_ne hvd hv0 (hge r0 (List.mem_cons_self r0 rest)) (fun e => heq e.symm)
    have hnone : ∀ x ∈ r0 :: rest, x.date ≠ d := by
      intro x hx e
      rcases List.mem_cons.mp hx with h | h
      · rw [h] at e; exact heq e
      · have hx2 : r0.date < x.date := (List.pairwise_cons.mp hsorted).1 x h
        rw [e] at hx2
        exact date_lt_irrefl _ (date_lt_trans hlt hx2)
    have hmin : ∀ x ∈ r0 :: rest, d < x.date → r0.date ≤ x.date := by
      intro x hx _
      rcases List.mem_cons.mp hx with h | h
      · rw [h]; exact date_le_refl _
      · exact date_le_of_lt ((List.pairwise_cons.mp hsorted).1 x h)
    unfold resolveExec
    have h1 : (r0 :: rest).find? (fun x => decide (x.date = d)) = none :=
      List.find?_eq_none.mpr (fun x hx => by simp [hnone x hx])
    rw [h1, resolveExec_find_gt d (r0 :: rest) hsorted r0 (List.mem_cons_self r0 rest) hlt hmin]

theorem processDate_first (c : Cfg) (dstart : Date) (hvd : validMonth dstart) :
    ∀ (syms : List String),
      (∀ t ∈ syms, c.prices t ≠ [] ∧
        List.Pairwise (fun a b => a.date < b.date) (c.prices t) ∧
        (∀ x ∈ c.prices t, dstart ≤ x.date ∧ validMonth x.date)) →
      ∀ s ∈ syms, ∀ pr ∈ c.prices s,
        ∃ tx ∈ processDate c dstart syms, tx.symbol = s ∧ tx.purchaseDate ≤ pr.date := by
  intro syms
  induction syms with
  | nil => intro _ s hs; simp at hs
  | cons t rest ih =>
    intro hall s hs pr hpr
    obtain ⟨hne_t, hsort_t, hge_t⟩ := hall t (List.mem_cons_self t rest)
    cases hpt : c.prices t with
    | nil => exact absurd hpt hne_t
    | cons r0 rs =>
      rw [hpt] at hsort_t hge_t
      have hresolve : resolveExec (c.prices t) dstart = some (r0.date, r0.openPrice) := by
        rw [hpt]
        exact resolveExec_head r0 rs dstart hsort_t (fun x hx => (hge_t x hx).1) hvd
          (hge_t r0 (List.mem_cons_self r0 rs)).2
      have hstep : processDate c dstart (t :: rest) =
          mkTx c t r0.date r0.openPrice :: processDate c dstart rest := by
        simp only [processDate, if_neg hne_t, hresolve]
      rcases List.mem_cons.mp hs with h | h
      · subst h
        rw [hpt] at hpr
        refine ⟨mkTx c s r0.date r0.openPrice, by rw [hstep]; exact List.mem_cons_self _ _, rfl, ?_⟩
        show r0.date ≤ pr.date
        rcases List.mem_cons.mp hpr with h2 | h2
        · rw [h2]; exact date_le_refl _
        · exact date_le_of_lt ((List.pairwise_cons.mp hsort_t).1 pr h2)
      · obtain ⟨tx, htx, h1, h2⟩ := ih (fun u hu => hall u (List.mem_cons_of_mem t hu)) s h pr hpr
        exact ⟨tx, by rw [hstep]; exact List.mem_cons_of_mem _ htx, h1, h2⟩

/-- Evaluation of `get_values_to_date` when the set of past
transactions is non-empty: all five figures, with the rounding steps of
the source. -/
theorem get_values_eq_ok (conv : Conv) (r : DevInRow) (invs : List TxRow) (base : String)
    (a : TxRow) (l : List TxRow) (hp : pastData invs r = a :: l) :
    get_values_to_date conv r invs base =
      Except.ok
        (((a :: l).map (fun t => t.sharesBought)).sum,
         round2 (((a :: l).map (fun t => t.investedCapital)).sum),
         round2 ((((a :: l).map (fun t => t.sharesBought)).sum) *
           conv r.closePrice a.origCurrency base r.date),
         round2 ((((a :: l).map (fun t => t.sharesBought)).sum) *
             conv r.closePrice a.origCurrency base r.date) -
           round2 (((a :: l).map (fun t => t.investedCapital)).sum),
         round2 (((round2 ((((a :: l).map (fun t => t.sharesBought)).sum) *
               conv r.closePrice a.origCurrency base r.date) -
             round2 (((a :: l).map (fun t => t.investedCapital)).sum)) /
             round2 (((a :: l).map (fun t => t.investedCapital)).sum)) * 100)) := by
  unfold get_values_to_date
  rw [hp]
  rfl

/-- C4 (amended): applied to a (date, symbol) pair with no prior
transaction of that symbol, `get_values_to_date` raises an IndexError
rather than excluding the pair; such pairs never reach the valuation in
the integrated pipeline, because (first conjunct) the computation
succeeds exactly on rows with at least one prior transaction and
(second conjunct) at the first nominal date every symbol whose series
is non-empty, sorted and within range receives a transaction dated at
the first date of its series, which is at or before every development
row date of that symbol. -/
theorem c4_zero_capital :
    (∀ (conv : Conv) (base : String) (r : DevInRow) (invs : List TxRow),
      (∃ t ∈ invs, t.purchaseDate ≤ r.date ∧ t.symbol = r.symbol) →
      ∃ v, get_values_to_date conv r invs base = Except.ok v) ∧
    (∀ (c : Cfg) (dstart : Date) (syms : List String),
      validMonth dstart →
      (∀ t ∈ syms, c.prices t ≠ [] ∧
        List.Pairwise (fun a b => a.date < b.date) (c.prices t) ∧
        (∀ x ∈ c.prices t, dstart ≤ x.date ∧ validMonth x.date)) →
      ∀ s ∈ syms, ∀ pr ∈ c.prices s,
        ∃ tx ∈ processDate c dstart syms, tx.symbol = s ∧ tx.purchaseDate ≤ pr.date) := by
  constructor
  · intro conv base r invs h
    obtain ⟨t, ht, h1, h2⟩ := h
    have hmem : t ∈ pastData invs r :=
      List.mem_filter.mpr ⟨ht, by simp [h1, h2]⟩
    have hne : pastData invs r ≠ [] := List.ne_nil_of_mem hmem
    cases hp : pastData invs r with
    | nil => exact absurd hp hne
    | cons a l => exact ⟨_, get_values_eq_ok conv r invs base a l hp⟩
  · intro c dstart syms hvd hall
    exact processDate_first c dstart hvd syms hall

/-- Counterexample to C4 as stated: on a concrete row with no prior
transaction the valuation computation fails with an IndexError (the
`.iloc[0]` lookup of the original currency); it does not quietly
exclude the pair. -/
theorem c4_counterexample :
    get_values_to_date (fun a _ _ _ => a) ⟨⟨2025, 1, 2⟩, "A", 100⟩ [] "USD" =
      Except.error "IndexError" := by
  decide

/-- Concrete one-symbol run for the C4 witness. -/
def c4cfg : Cfg :=
  ⟨fun a _ _ _ => a, 100, "USD", fun _ => "USD", fun _ => "EQUITY",
    fun s => if s = "A" then [⟨⟨2025, 1, 2⟩, 10, 10, 0⟩, ⟨⟨2025, 1, 3⟩, 11, 11, 0⟩] else []⟩

/-- Witness for C4 at concrete inputs. -/
theorem c4_witness :
    (∃ v, get_values_to_date (fun a _ _ _ => a) ⟨⟨2025, 1, 3⟩, "A", 50⟩
      [⟨⟨2025, 1, 2⟩, "A", "EQUITY", "USD", 1, 100, 100, 100⟩] "USD" = Except.ok v) ∧
    (∃ tx ∈ processDate c4cfg ⟨2025, 1, 1⟩ ["A"], tx.symbol = "A" ∧
      tx.purchaseDate ≤ (⟨⟨2025, 1, 3⟩, 11, 11, 0⟩ : PriceRec).date) := by
  constructor
  · exact c4_zero_capital.1 (fun a _ _ _ => a) "USD" ⟨⟨2025, 1, 3⟩, "A", 50⟩
      [⟨⟨2025, 1, 2⟩, "A", "EQUITY", "USD", 1, 100, 100, 100⟩]
      ⟨⟨⟨2025, 1, 2⟩, "A", "EQUITY", "USD", 1, 100, 100, 100⟩, by decide, by decide, by decide⟩
  · exact c4_zero_capital.2 c4cfg ⟨2025, 1, 1⟩ ["A"] (by decide) (by decide) "A" (by decide)
      ⟨⟨2025, 1, 3⟩, 11, 11, 0⟩ (by decide)

/-! ## C2: the valuation equations, C7: conversion sites -/

/-- Identity collaborator for concrete runs. -/
def convId : Conv := fun a _ _ _ => a

/-- A collaborator that perturbs every conversion by one unit, used to
observe whether a conversion site consults the collaborator. -/
def convOff : Conv := fun a _ _ _ => a - 1

/-- C2 (amended): on a development row with at least one prior
transaction of its symbol, the computed figures satisfy: shares to date
is the sum of shares bought over the transactions of that symbol dated
at or before the row; invested capital is the analogous sum rounded to
two decimals; value to date is shares times the converted close price,
rounded to two decimals; the gain is value minus capital; the
percentage return is gain over capital times 100, rounded to two
decimals. -/
theorem c2_valuation (conv : Conv) (r : DevInRow) (invs : List TxRow) (base : String)
    (a : TxRow) (l : List TxRow)
    (hp : invs.filter
      (fun t => decide (t.purchaseDate ≤ r.date) && decide (t.symbol = r.symbol)) = a :: l) :
    ∃ shares cap value gain pct,
      get_values_to_date conv r invs base = Except.ok (shares, cap, value, gain, pct) ∧
      shares = ((invs.filter
        (fun t => decide (t.purchaseDate ≤ r.date) && decide (t.symbol = r.symbol))).map
          (fun t => t.sharesBought)).sum ∧
      cap = round2 (((invs.filter
        (fun t => decide (t.purchaseDate ≤ r.date) && decide (t.symbol = r.symbol))).map
          (fun t => t.investedCapital)).sum) ∧
      value = round2 (shares * conv r.closePrice a.origCurrency base r.date) ∧
      gain = value - cap ∧
      pct = round2 ((gain / cap) * 100) := by
  refine ⟨_, _, _, _, _, get_values_eq_ok conv r invs base a l hp, ?_, ?_, ?_, ?_, ?_⟩
  · rw [hp]
  · rw [hp]
  · rfl
  · rfl
  · rfl

/-- Counterexample to C2 as stated: one transaction of 1 share, the
close price is 100/3 in the base currency; the stored value to date is
the rounded 33.33, not the exact product 100/3 the claim requires. -/
theorem c2_counterexample :
    get_values_to_date convId ⟨⟨2025, 1, 2⟩, "A", 100 / 3⟩
      [⟨⟨2025, 1, 2⟩, "A", "EQUITY", "USD", 1, 3, 3, 100⟩] "USD" =
      Except.ok (1, 100, 3333 / 100, -6667 / 100, -6667 / 100) ∧
    (3333 / 100 : ℚ) ≠ 1 * (100 / 3) := by
  constructor
  · have hp : pastData [⟨⟨2025, 1, 2⟩, "A", "EQUITY", "USD", 1, 3, 3, 100⟩]
        ⟨⟨2025, 1, 2⟩, "A", 100 / 3⟩ = [⟨⟨2025, 1, 2⟩, "A", "EQUITY", "USD", 1, 3, 3, 100⟩] := by
      decide
    simp only [get_values_to_date, hp]
    norm_num [convId, round2]
  · norm_num

/-- The two transactions of the spec example: 100 dollars for one share
at 100 on Jan 2 and again on Feb 3, price unchanged. -/
def c2janTx : TxRow := ⟨⟨2025, 1, 2⟩, "A", "EQUITY", "USD", 1, 100, 100, 100⟩

def c2febTx : TxRow := ⟨⟨2025, 2, 3⟩, "A", "EQUITY", "USD", 1, 100, 100, 100⟩

/-- Witness for the amended C2 at the spec example. -/
theorem c2_witness :
    ([c2janTx, c2febTx].filter
      (fun t => decide (t.purchaseDate ≤ (⟨⟨2025, 2, 3⟩, "A", (100 : ℚ)⟩ : DevInRow).date) &&
        decide (t.symbol = (⟨⟨2025, 2, 3⟩, "A", (100 : ℚ)⟩ : DevInRow).symbol)) =
      c2janTx :: [c2febTx]) ∧
    (∃ shares cap value gain pct,
      get_values_to_date convId ⟨⟨2025, 2, 3⟩, "A", 100⟩ [c2janTx, c2febTx] "USD" =
        Except.ok (shares, cap, value, gain, pct) ∧
      shares = (([c2janTx, c2febTx].filter
        (fun t => decide (t.purchaseDate ≤ (⟨⟨2025, 2, 3⟩, "A", (100 : ℚ)⟩ : DevInRow).date) &&
          decide (t.symbol = (⟨⟨2025, 2, 3⟩, "A", (100 : ℚ)⟩ : DevInRow).symbol))).map
            (fun t => t.sharesBought)).sum ∧
      cap = round2 ((([c2janTx, c2febTx].filter
        (fun t => decide (t.purchaseDate ≤ (⟨⟨2025, 2, 3⟩, "A", (100 : ℚ)⟩ : DevInRow).date) &&
          decide (t.symbol = (⟨⟨2025, 2, 3⟩, "A", (100 : ℚ)⟩ : DevInRow).symbol))).map
            (fun t => t.investedCapital)).sum) ∧
      value = round2 (shares * convId (⟨⟨2025, 2, 3⟩, "A", (100 : ℚ)⟩ : DevInRow).closePrice
        c2janTx.origCurrency "USD" (⟨⟨2025, 2, 3⟩, "A", (100 : ℚ)⟩ : DevInRow).date) ∧
      gain = value - cap ∧
      pct = round2 ((gain / cap) * 100)) :=
  ⟨by decide, c2_valuation convId ⟨⟨2025, 2, 3⟩, "A", 100⟩ [c2janTx, c2febTx] "USD"
    c2janTx [c2febTx] (by decide)⟩

/-- Evaluation of the spec example: two 100-dollar purchases of one
share each at an unchanged price of 100 give shares 2, capital 200,
value 200, gain 0 and return 0 on the later date. -/
theorem c2_example_eval :
    get_values_to_date convId ⟨⟨2025, 2, 3⟩, "A", 100⟩ [c2janTx, c2febTx] "USD" =
      Except.ok (2, 200, 200, 0, 0) := by
  have hp : pastData [c2janTx, c2febTx] ⟨⟨2025, 2, 3⟩, "A", 100⟩ = [c2janTx, c2febTx] := by decide
  simp only [get_values_to_date, hp]
  norm_num [convId, round2, c2janTx, c2febTx]

/-- C7 (amended): the identity fast path holds at the buy-price
conversion site, exactly and independently of the collaborator; the
close-price conversion of the valuation and the dividend conversion
delegate to the collaborator unconditionally, also when the two
currencies coincide (and the dividend result is additionally rounded to
two decimals). -/
theorem c7_currency_identity :
    (∀ (conv : Conv) (p : ℚ) (cur : String) (d : Date),
      buyPriceConverted conv p cur cur d = p) ∧
    (∀ (conv : Conv) (r : DevInRow) (invs : List TxRow) (base : String)
        (a : TxRow) (l : List TxRow),
      pastData invs r = a :: l →
      ∃ shares cap value gain pct,
        get_values_to_date conv r invs base = Except.ok (shares, cap, value, gain, pct) ∧
        value = round2 (shares * conv r.closePrice a.origCurrency base r.date)) ∧
    (∀ (conv : Conv) (r : DivRow) (base : String) (invs : List TxRow)
        (a : TxRow) (l : List TxRow),
      invs.filter (fun t => decide (r.symbol = t.symbol)) = a :: l →
      convert_dividends conv r base invs =
        Except.ok (a.origCurrency, round2 (conv r.dividendPerShare a.origCurrency base r.date))) := by
  refine ⟨?_, ?_, ?_⟩
  · intro conv p cur d
    simp [buyPriceConverted]
  · intro conv r invs base a l hp
    exact ⟨_, _, _, _, _, get_values_eq_ok conv r invs base a l hp, rfl⟩
  · intro conv r base invs a l hfilter
    unfold convert_dividends
    rw [hfilter]
    rfl

/-- Counterexample to C7 as stated: with a collaborator that perturbs
every conversion by one unit, a same-currency close-price conversion
and a same-currency dividend conversion both change the amount, so
those two sites do invoke the collaborator; only the buy-price site
short-circuits. -/
theorem c7_counterexample :
    buyPriceConverted convOff 100 "USD" "USD" ⟨2025, 1, 2⟩ = 100 ∧
    get_values_to_date convOff ⟨⟨2025, 1, 2⟩, "A", 100⟩
        [⟨⟨2025, 1, 2⟩, "A", "EQUITY", "USD", 1, 3, 3, 100⟩] "USD" ≠
      get_values_to_date convId ⟨⟨2025, 1, 2⟩, "A", 100⟩
        [⟨⟨2025, 1, 2⟩, "A", "EQUITY", "USD", 1, 3, 3, 100⟩] "USD" ∧
    convert_dividends convOff ⟨⟨2025, 1, 2⟩, "A", 10⟩ "USD"
        [⟨⟨2025, 1, 2⟩, "A", "EQUITY", "USD", 1, 3, 3, 100⟩] = Except.ok ("USD", 9) ∧
    (9 : ℚ) ≠ 10 := by
  have hp : pastData [⟨⟨2025, 1, 2⟩, "A", "EQUITY", "USD", 1, 3, 3, 100⟩]
      ⟨⟨2025, 1, 2⟩, "A", 100⟩ = [⟨⟨2025, 1, 2⟩, "A", "EQUITY", "USD", 1, 3, 3, 100⟩] := by
    decide
  have hs : [(⟨⟨2025, 1, 2⟩, "A", "EQUITY", "USD", 1, 3, 3, 100⟩ : TxRow)].filter
      (fun t => decide ((⟨⟨2025, 1, 2⟩, "A", (10 : ℚ)⟩ : DivRow).symbol = t.symbol)) =
      [⟨⟨2025, 1, 2⟩, "A", "EQUITY", "USD", 1, 3, 3, 100⟩] := by
    decide
  refine ⟨by simp [buyPriceConverted], ?_, ?_, by norm_num⟩
  · simp only [get_values_to_date, hp]
    norm_num [convId, convOff, round2]
  · simp only [convert_dividends, hs]
    norm_num [convOff, round2]

/-- Witness for the amended C7 at concrete inputs. -/
theorem c7_witness :
    buyPriceConverted convOff 50 "EUR" "EUR" ⟨2025, 1, 2⟩ = 50 ∧
    (∃ shares cap value gain pct,
      get_values_to_date convOff ⟨⟨2025, 1, 2⟩, "A", 100⟩
          [⟨⟨2025, 1, 2⟩, "A", "EQUITY", "USD", 1, 3, 3, 100⟩] "USD" =
        Except.ok (shares, cap, value, gain, pct) ∧
      value = round2 (shares * convOff (⟨⟨2025, 1, 2⟩, "A", (100 : ℚ)⟩ : DevInRow).closePrice
        (⟨⟨2025, 1, 2⟩, "A", "EQUITY", "USD", 1, 3, 3, 100⟩ : TxRow).origCurrency "USD"
        (⟨⟨2025, 1, 2⟩, "A", (100 : ℚ)⟩ : DevInRow).date)) ∧
    convert_dividends convOff ⟨⟨2025, 1, 2⟩, "A", 10⟩ "USD"
        [⟨⟨2025, 1, 2⟩, "A", "EQUITY", "USD", 1, 3, 3, 100⟩] =
      Except.ok ((⟨⟨2025, 1, 2⟩, "A", "EQUITY", "USD", 1, 3, 3, 100⟩ : TxRow).origCurrency,
        round2 (convOff (⟨⟨2025, 1, 2⟩, "A", (10 : ℚ)⟩ : DivRow).dividendPerShare
          (⟨⟨2025, 1, 2⟩, "A", "EQUITY", "USD", 1, 3, 3, 100⟩ : TxRow).origCurrency "USD"
          (⟨⟨2025, 1, 2⟩, "A", (10 : ℚ)⟩ : DivRow).date)) :=
  ⟨c7_currency_identity.1 convOff 50 "EUR" ⟨2025, 1, 2⟩,
    c7_currency_identity.2.1 convOff ⟨⟨2025, 1, 2⟩, "A", 100⟩
      [⟨⟨2025, 1, 2⟩, "A", "EQUITY", "USD", 1, 3, 3, 100⟩] "USD"
      ⟨⟨2025, 1, 2⟩, "A", "EQUITY", "USD", 1, 3, 3, 100⟩ [] (by decide),
    c7_currency_identity.2.2 convOff ⟨⟨2025, 1, 2⟩, "A", 10⟩ "USD"
      [⟨⟨2025, 1, 2⟩, "A", "EQUITY", "USD", 1, 3, 3, 100⟩]
      ⟨⟨2025, 1, 2⟩, "A", "EQUITY", "USD", 1, 3, 3, 100⟩ [] (by decide)⟩

/-! ## C8: daily deduplication -/

theorem insertSorted_perm (r : TxRow) : ∀ l : List TxRow, (insertSorted r l).Perm (r :: l) := by
  intro l
  induction l with
  | nil => exact List.Perm.refl _
  | cons x xs ih =>
    unfold insertSorted
    split
    · exact List.Perm.refl _
    · exact List.Perm.trans (ih.cons x) (List.Perm.swap r x xs)

theorem sortRows_perm : ∀ l : List TxRow, (sortRows l).Perm l := by
  intro l
  induction l with
  | nil => exact List.Perm.refl _
  | cons x xs ih =>
    exact List.Perm.trans (insertSorted_perm x (sortRows xs)) (ih.cons x)

theorem dedupByKey_subset :
    ∀ (l : List TxRow) (seen : List (Date × String)), ∀ r ∈ dedupByKey l seen, r ∈ l := by
  intro l
  induction l with
  | nil => intro seen r hr; simp [dedupByKey] at hr
  | cons a as ih =>
    intro seen r hr
    unfold dedupByKey at hr
    split at hr
    · exact List.mem_cons_of_mem a (ih seen r hr)
    · rcases List.mem_cons.mp hr with h | h
      · rw [h]; exact List.mem_cons_self a as
      · exact List.mem_cons_of_mem a (ih _ r h)

theorem dedupByKey_keys :
    ∀ (l : List TxRow) (seen : List (Date × String)),
      (dedupByKey l seen).Pairwise
        (fun a b => ¬ ((a.purchaseDate, a.symbol) = (b.purchaseDate, b.symbol))) ∧
      ∀ r ∈ dedupByKey l seen, (r.purchaseDate, r.symbol) ∉ seen := by
  intro l
  induction l with
  | nil => intro seen; exact ⟨List.Pairwise.nil, by intro r hr; simp [dedupByKey] at hr⟩
  | cons a as ih =>
    intro seen
    unfold dedupByKey
    split
    · next hseen =>
      refine ⟨(ih seen).1, (ih seen).2⟩
    · next hseen =>
      constructor
      · apply List.pairwise_cons.mpr
        refine ⟨?_, (ih ((a.purchaseDate, a.symbol) :: seen)).1⟩
        intro b hb hkey
        have := (ih ((a.purchaseDate, a.symbol) :: seen)).2 b hb
        rw [← hkey] at this
        exact this (List.mem_cons_self _ _)
      · intro r hr
        rcases List.mem_cons.mp hr with h | h
        · rw [h]; exact hseen
        · have := (ih ((a.purchaseDate, a.symbol) :: seen)).2 r h
          intro hmem
          exact this (List.mem_cons_of_mem _ hmem)

theorem dedupByKey_find? :
    ∀ (l : List TxRow) (seen : List (Date × String)) (k : Date × String), k ∉ seen →
      (dedupByKey l seen).find? (fun x => decide ((x.purchaseDate, x.symbol) = k)) =
        l.find? (fun x => decide ((x.purchaseDate, x.symbol) = k)) := by
  intro l
  induction l with
  | nil => intro seen k _; rfl
  | cons a as ih =>
    intro seen k hk
    unfold dedupByKey
    split
    · next hseen =>
      have hak : ¬ ((a.purchaseDate, a.symbol) = k) := by
        intro e; rw [e] at hseen; exact hk hseen
      rw [ih seen k hk, List.find?_cons_of_neg _ (by simp [hak])]
    · next hseen =>
      by_cases hak : (a.purchaseDate, a.symbol) = k
      · rw [List.find?_cons_of_pos _ (by simp [hak]),
          List.find?_cons_of_pos _ (by simp [hak])]
      · rw [List.find?_cons_of_neg _ (by simp [hak]),
          List.find?_cons_of_neg _ (by simp [hak])]
        apply ih
        intro hmem
        rcases List.mem_cons.mp hmem with h | h
        · exact hak h.symm
        · exact hk h

/-- C8: under Daily frequency the final transactions table has at most
one row per (purchase date, symbol) key; duplicate keys are collapsed
first-write-wins: every kept row is one of the original rows (amounts
are not summed), and for each key present the kept row is the first
created row with that key. -/
theorem c8_daily_dedup (rows : List TxRow) :
    (∀ r ∈ finalizeTable "Daily" rows, r ∈ rows) ∧
    (finalizeTable "Daily" rows).Pairwise
      (fun a b => ¬ (a.purchaseDate = b.purchaseDate ∧ a.symbol = b.symbol)) ∧
    (∀ (k : Date × String) (r : TxRow),
      rows.find? (fun x => decide ((x.purchaseDate, x.symbol) = k)) = some r →
      r ∈ finalizeTable "Daily" rows ∧
      ∀ r2 ∈ finalizeTable "Daily" rows,
        (r2.purchaseDate, r2.symbol) = k → r2 = r) := by
  have hfin : finalizeTable "Daily" rows = sortRows (dedupByKey rows []) := by
    simp [finalizeTable]
  have hperm : (finalizeTable "Daily" rows).Perm (dedupByKey rows []) := by
    rw [hfin]; exact sortRows_perm _
  have hpair : (dedupByKey rows []).Pairwise
      (fun a b => ¬ ((a.purchaseDate, a.symbol) = (b.purchaseDate, b.symbol))) :=
    (dedupByKey_keys rows []).1
  refine ⟨?_, ?_, ?_⟩
  · intro r hr
    exact dedupByKey_subset rows [] r (hperm.mem_iff.mp hr)
  · have hp2 : (dedupByKey rows []).Pairwise
        (fun a b => ¬ (a.purchaseDate = b.purchaseDate ∧ a.symbol = b.symbol)) := by
      refine List.Pairwise.imp ?_ hpair
      intro a b hk hab
      apply hk
      rw [hab.1, hab.2]
    exact (hperm.pairwise_iff (fun {x y} h h2 => h ⟨h2.1.symm, h2.2.symm⟩)).mpr hp2
  · intro k r hfind
    have hd : (dedupByKey rows []).find?
        (fun x => decide ((x.purchaseDate, x.symbol) = k)) = some r := by
      rw [dedupByKey_find? rows [] k (by simp), hfind]
    have hrmem : r ∈ finalizeTable "Daily" rows :=
      hperm.mem_iff.mpr (List.mem_of_find?_eq_some hd)
    have hrkey : (r.purchaseDate, r.symbol) = k := by
      have := List.find?_some hd
      simpa using this
    refine ⟨hrmem, ?_⟩
    intro r2 hr2 hk2
    by_contra hne
    have hpair2 : (finalizeTable "Daily" rows).Pairwise
        (fun a b => ¬ ((a.purchaseDate, a.symbol) = (b.purchaseDate, b.symbol))) :=
      (hperm.pairwise_iff (fun {x y} h h2 => h h2.symm)).mpr hpair
    have hsym : Symmetric
        (fun a b : TxRow => ¬ ((a.purchaseDate, a.symbol) = (b.purchaseDate, b.symbol))) := by
      intro a b hab hba
      exact hab hba.symm
    have := List.Pairwise.forall hsym hpair2 hr2 hrmem hne
    rw [hk2, hrkey] at this
    exact this rfl

/-- Witness for C8 on a concrete table: two rows share the key
(Jan 6, A); the first-created row is kept. -/
theorem c8_witness :
    (∀ r ∈ finalizeTable "Daily"
        [⟨⟨2025, 1, 6⟩, "A", "E", "USD", 10, 10, 10, 100⟩,
         ⟨⟨2025, 1, 6⟩, "B", "E", "USD", 8, 12, 12, 100⟩,
         ⟨⟨2025, 1, 6⟩, "A", "E", "USD", 9, 11, 11, 100⟩],
      r ∈ [⟨⟨2025, 1, 6⟩, "A", "E", "USD", 10, 10, 10, 100⟩,
         ⟨⟨2025, 1, 6⟩, "B", "E", "USD", 8, 12, 12, 100⟩,
         ⟨⟨2025, 1, 6⟩, "A", "E", "USD", 9, 11, 11, 100⟩]) ∧
    (finalizeTable "Daily"
        [⟨⟨2025, 1, 6⟩, "A", "E", "USD", 10, 10, 10, 100⟩,
         ⟨⟨2025, 1, 6⟩, "B", "E", "USD", 8, 12, 12, 100⟩,
         ⟨⟨2025, 1, 6⟩, "A", "E", "USD", 9, 11, 11, 100⟩]).Pairwise
      (fun a b => ¬ (a.purchaseDate = b.purchaseDate ∧ a.symbol = b.symbol)) ∧
    (⟨⟨2025, 1, 6⟩, "A", "E", "USD", 10, 10, 10, 100⟩ : TxRow) ∈ finalizeTable "Daily"
        [⟨⟨2025, 1, 6⟩, "A", "E", "USD", 10, 10, 10, 100⟩,
         ⟨⟨2025, 1, 6⟩, "B", "E", "USD", 8, 12, 12, 100⟩,
         ⟨⟨2025, 1, 6⟩, "A", "E", "USD", 9, 11, 11, 100⟩] := by
  have h := c8_daily_dedup
    [⟨⟨2025, 1, 6⟩, "A", "E", "USD", 10, 10, 10, 100⟩,
     ⟨⟨2025, 1, 6⟩, "B", "E", "USD", 8, 12, 12, 100⟩,
     ⟨⟨2025, 1, 6⟩, "A", "E", "USD", 9, 11, 11, 100⟩]
  exact ⟨h.1, h.2.1,
    (h.2.2 (⟨2025, 1, 6⟩, "A") ⟨⟨2025, 1, 6⟩, "A", "E", "USD", 10, 10, 10, 100⟩ (by decide)).1⟩

/-! ## C5 and C9: the metric calculator -/

theorem getLastD_mem_dev : ∀ (l : List DevRow) (d : DevRow), l ≠ [] → l.getLastD d ∈ l := by
  intro l
  induction l with
  | nil => intro d h; exact absurd rfl h
  | cons a as ih =>
    intro d _
    rw [List.getLastD_cons]
    by_cases h : as = []
    · subst h; simp [List.getLastD]
    · exact List.mem_cons_of_mem a (ih a h)

theorem sorted_getLastD_le : ∀ (l : List DevRow) (d : DevRow),
    List.Pairwise (fun a b => a.date ≤ b.date) l →
    ∀ x ∈ l, x.date ≤ (l.getLastD d).date := by
  intro l
  induction l with
  | nil => intro d _ x hx; simp at hx
  | cons a as ih =>
    intro d hp x hx
    rw [List.getLastD_cons]
    by_cases h : as = []
    · subst h
      rcases List.mem_cons.mp hx with hxa | hxa
      · rw [hxa]; exact date_le_refl _
      · simp at hxa
    · rcases List.mem_cons.mp hx with hxa | hxa
      · rw [hxa]
        exact (List.pairwise_cons.mp hp).1 _ (getLastD_mem_dev as a h)
      · exact ih a (List.pairwise_cons.mp hp).2 x hxa

/-- C5 (amended): the cutoff of every window is anchored at the current
wall-clock date captured at module import (`today`), not at the latest
date of the series (YTD is January 1 of the current year clamped to the
earliest series date, MAX is the earliest series date); on a
date-sorted development frame with at least one row at or before the
cutoff, the reported figures are the gain and percentage at the last
row minus those at the last row dated at or before the cutoff, rounded
to two decimals. -/
theorem c5_metric_window (today : Date) (m : Metric) (df : List DevRow)
    (hs : List.Pairwise (fun a b => a.date ≤ b.date) df)
    (hex : ∃ r ∈ df, r.date ≤ lastDates today (listMinDate (df.map (fun x => x.date))) m) :
    ∃ rlast rcut,
      rlast ∈ df ∧ rcut ∈ df ∧
      (∀ x ∈ df, x.date ≤ rlast.date) ∧
      rcut.date ≤ lastDates today (listMinDate (df.map (fun x => x.date))) m ∧
      (∀ x ∈ df, x.date ≤ lastDates today (listMinDate (df.map (fun x => x.date))) m →
        x.date ≤ rcut.date) ∧
      calculate_development_metric today m df =
        (MetricVal.num (round2 (rlast.gain - rcut.gain)),
         MetricVal.num (round2 (rlast.pct - rcut.pct))) := by
  obtain ⟨r0, hr0, hr0le⟩ := hex
  have hr0B : r0 ∈ df.filter
      (fun x => decide (x.date ≤ lastDates today (listMinDate (df.map (fun x => x.date))) m)) :=
    List.mem_filter.mpr ⟨hr0, by simp [hr0le]⟩
  have hBne : df.filter
      (fun x => decide (x.date ≤ lastDates today (listMinDate (df.map (fun x => x.date))) m)) ≠ [] :=
    List.ne_nil_of_mem hr0B
  have hdfne : df ≠ [] := List.ne_nil_of_mem hr0
  have hBsorted : List.Pairwise (fun a b => a.date ≤ b.date)
      (df.filter
        (fun x => decide (x.date ≤ lastDates today (listMinDate (df.map (fun x => x.date))) m))) :=
    List.Pairwise.sublist (List.filter_sublist df) hs
  refine ⟨df.getLastD ⟨⟨0, 1, 1⟩, 0, 0⟩,
    (df.filter (fun x => decide (x.date ≤
      lastDates today (listMinDate (df.map (fun x => x.date))) m))).getLastD ⟨⟨0, 1, 1⟩, 0, 0⟩,
    getLastD_mem_dev df _ hdfne,
    List.mem_of_mem_filter (getLastD_mem_dev _ _ hBne),
    sorted_getLastD_le df _ hs, ?_, ?_, ?_⟩
  · have := List.of_mem_filter (getLastD_mem_dev _ ⟨⟨0, 1, 1⟩, 0, 0⟩ hBne)
    simpa using this
  · intro x hx hxle
    exact sorted_getLastD_le _ _ hBsorted x (List.mem_filter.mpr ⟨hx, by simp [hxle]⟩)
  · have hfalse : (df.filter
        (fun x => decide (x.date ≤
          lastDates today (listMinDate (df.map (fun x => x.date))) m))).isEmpty = false :=
      List.isEmpty_eq_false.mpr hBne
    simp only [calculate_development_metric, hfalse, Bool.false_eq_true, if_false]

/-- Counterexample to C5 as stated: a development series ending in June
2020 evaluated with the module-import date 2026-10-12; the source
reports a one-day change of 0 because its cutoff (yesterday, wall
clock) lies after all data, while the claimed latest-date-minus-window
cutoff gives a change of 50. `specDevelopmentMetric` is the claim
transcribed. -/
theorem c5_counterexample :
    calculate_development_metric ⟨2026, 10, 12⟩ Metric.D1
        [⟨⟨2020, 1, 2⟩, 0, 0⟩, ⟨⟨2020, 6, 1⟩, 50, 5⟩] = (MetricVal.num 0, MetricVal.num 0) ∧
    specDevelopmentMetric Metric.D1
        [⟨⟨2020, 1, 2⟩, 0, 0⟩, ⟨⟨2020, 6, 1⟩, 50, 5⟩] = (MetricVal.num 50, MetricVal.num 5) ∧
    calculate_development_metric ⟨2026, 10, 12⟩ Metric.D1
        [⟨⟨2020, 1, 2⟩, 0, 0⟩, ⟨⟨2020, 6, 1⟩, 50, 5⟩] ≠
      specDevelopmentMetric Metric.D1 [⟨⟨2020, 1, 2⟩, 0, 0⟩, ⟨⟨2020, 6, 1⟩, 50, 5⟩] := by
  have h1 : calculate_development_metric ⟨2026, 10, 12⟩ Metric.D1
      [⟨⟨2020, 1, 2⟩, 0, 0⟩, ⟨⟨2020, 6, 1⟩, 50, 5⟩] = (MetricVal.num 0, MetricVal.num 0) := by
    have hb : [(⟨⟨2020, 1, 2⟩, 0, 0⟩ : DevRow), ⟨⟨2020, 6, 1⟩, 50, 5⟩].filter
        (fun r => decide (r.date ≤ lastDates ⟨2026, 10, 12⟩
          (listMinDate (List.map (fun r => r.date)
            [(⟨⟨2020, 1, 2⟩, 0, 0⟩ : DevRow), ⟨⟨2020, 6, 1⟩, 50, 5⟩])) Metric.D1)) =
        [⟨⟨2020, 1, 2⟩, 0, 0⟩, ⟨⟨2020, 6, 1⟩, 50, 5⟩] := by decide
    simp only [calculate_development_metric, hb]
    norm_num [round2]
  have h2 : specDevelopmentMetric Metric.D1
      [⟨⟨2020, 1, 2⟩, 0, 0⟩, ⟨⟨2020, 6, 1⟩, 50, 5⟩] = (MetricVal.num 50, MetricVal.num 5) := by
    have hb : [(⟨⟨2020, 1, 2⟩, 0, 0⟩ : DevRow), ⟨⟨2020, 6, 1⟩, 50, 5⟩].filter
        (fun r => decide (r.date ≤ specLastDates
          (listMaxDate (List.map (fun r => r.date)
            [(⟨⟨2020, 1, 2⟩, 0, 0⟩ : DevRow), ⟨⟨2020, 6, 1⟩, 50, 5⟩]))
          (listMinDate (List.map (fun r => r.date)
            [(⟨⟨2020, 1, 2⟩, 0, 0⟩ : DevRow), ⟨⟨2020, 6, 1⟩, 50, 5⟩])) Metric.D1)) =
        [⟨⟨2020, 1, 2⟩, 0, 0⟩] := by decide
    simp only [specDevelopmentMetric, hb]
    norm_num [round2]
  refine ⟨h1, h2, ?_⟩
  rw [h1, h2]
  decide

/-- Witness for the amended C5 at the counterexample data. -/
theorem c5_witness :
    (List.Pairwise (fun a b : DevRow => a.date ≤ b.date)
      [⟨⟨2020, 1, 2⟩, 0, 0⟩, ⟨⟨2020, 6, 1⟩, 50, 5⟩] ∧
     ∃ r ∈ [(⟨⟨2020, 1, 2⟩, 0, 0⟩ : DevRow), ⟨⟨2020, 6, 1⟩, 50, 5⟩],
       r.date ≤ lastDates ⟨2026, 10, 12⟩
         (listMinDate (List.map (fun x => x.date)
           [(⟨⟨2020, 1, 2⟩, 0, 0⟩ : DevRow), ⟨⟨2020, 6, 1⟩, 50, 5⟩])) Metric.D1) ∧
    (∃ rlast rcut,
      rlast ∈ [(⟨⟨2020, 1, 2⟩, 0, 0⟩ : DevRow), ⟨⟨2020, 6, 1⟩, 50, 5⟩] ∧
      rcut ∈ [(⟨⟨2020, 1, 2⟩, 0, 0⟩ : DevRow), ⟨⟨2020, 6, 1⟩, 50, 5⟩] ∧
      (∀ x ∈ [(⟨⟨2020, 1, 2⟩, 0, 0⟩ : DevRow), ⟨⟨2020, 6, 1⟩, 50, 5⟩], x.date ≤ rlast.date) ∧
      rcut.date ≤ lastDates ⟨2026, 10, 12⟩
        (listMinDate (List.map (fun x => x.date)
          [(⟨⟨2020, 1, 2⟩, 0, 0⟩ : DevRow), ⟨⟨2020, 6, 1⟩, 50, 5⟩])) Metric.D1 ∧
      (∀ x ∈ [(⟨⟨2020, 1, 2⟩, 0, 0⟩ : DevRow), ⟨⟨2020, 6, 1⟩, 50, 5⟩],
        x.date ≤ lastDates ⟨2026, 10, 12⟩
          (listMinDate (List.map (fun x => x.date)
            [(⟨⟨2020, 1, 2⟩, 0, 0⟩ : DevRow), ⟨⟨2020, 6, 1⟩, 50, 5⟩])) Metric.D1 →
        x.date ≤ rcut.date) ∧
      calculate_development_metric ⟨2026, 10, 12⟩ Metric.D1
          [⟨⟨2020, 1, 2⟩, 0, 0⟩, ⟨⟨2020, 6, 1⟩, 50, 5⟩] =
        (MetricVal.num (round2 (rlast.gain - rcut.gain)),
         MetricVal.num (round2 (rlast.pct - rcut.pct)))) :=
  ⟨⟨by decide, ⟨⟨⟨2020, 1, 2⟩, 0, 0⟩, by decide, by decide⟩⟩,
    c5_metric_window ⟨2026, 10, 12⟩ Metric.D1
      [⟨⟨2020, 1, 2⟩, 0, 0⟩, ⟨⟨2020, 6, 1⟩, 50, 5⟩] (by decide)
      ⟨⟨⟨2020, 1, 2⟩, 0, 0⟩, by decide, by decide⟩⟩

/-- C9: whenever no row of the development frame is dated at or before
the computed cutoff, the calculator returns the not-applicable sentinel
for both figures, and the sentinel is distinct from every numeric
value, in particular from a numeric zero. -/
theorem c9_sentinel (today : Date) (m : Metric) (df : List DevRow)
    (h : ∀ r ∈ df, ¬ r.date ≤ lastDates today (listMinDate (df.map (fun x => x.date))) m) :
    calculate_development_metric today m df = (MetricVal.na, MetricVal.na) ∧
    ∀ q : ℚ, MetricVal.na ≠ MetricVal.num q := by
  constructor
  · have hnil : df.filter
        (fun x => decide (x.date ≤
          lastDates today (listMinDate (df.map (fun x => x.date))) m)) = [] := by
      apply List.filter_eq_nil_iff.mpr
      intro x hx
      simp [h x hx]
    simp only [calculate_development_metric, hnil]
    rfl
  · intro q hq
    exact MetricVal.noConfusion hq

/-- Witness for C9: a single-row series from January 2024 against the
five-year window at wall-clock date 2026-10-12. -/
theorem c9_witness :
    (∀ r ∈ [(⟨⟨2024, 1, 2⟩, 5, 1⟩ : DevRow)],
      ¬ r.date ≤ lastDates ⟨2026, 10, 12⟩
        (listMinDate (List.map (fun x => x.date) [(⟨⟨2024, 1, 2⟩, 5, 1⟩ : DevRow)])) Metric.Y5) ∧
    (calculate_development_metric ⟨2026, 10, 12⟩ Metric.Y5 [⟨⟨2024, 1, 2⟩, 5, 1⟩] =
        (MetricVal.na, MetricVal.na) ∧
      ∀ q : ℚ, MetricVal.na ≠ MetricVal.num q) :=
  ⟨by decide,
    c9_sentinel ⟨2026, 10, 12⟩ Metric.Y5 [⟨⟨2024, 1, 2⟩, 5, 1⟩] (by decide)⟩

/-! ## C6 and C10: the day-of-month scheduler -/

theorem schedLoop_isSome (ds de : Date) :
    ∀ (fuel : Nat) (p : Date), monthIdx de - monthIdx p < (fuel : Int) →
      schedLoop ds de fuel p ≠ none := by
  intro fuel
  induction fuel with
  | zero =>
    intro p hf
    unfold schedLoop
    split
    · simp
    · split
      · next _ h2 =>
        exfalso
        rw [date_le_def] at h2
        push_cast at hf
        omega
      · simp
  | succ f ih =>
    intro p hf
    unfold schedLoop
    split
    · simp
    · split
      · apply ih
        rw [monthIdx_addMonths]
        push_cast at hf ⊢
        omega
      · simp

theorem schedLoop_char (ds de : Date) (dday : Int) (hday : dday ≤ 28) :
    ∀ (fuel : Nat) (p : Date), p.day = dday →
      (∀ q : Date, q.day = dday → monthIdx q < monthIdx p → ds ≤ q → ¬ q ≤ de) →
      ∀ res : Bool × Date, schedLoop ds de fuel p = some res →
      (res.1 = true → res.2.day = dday ∧ ds ≤ res.2 ∧ res.2 ≤ de ∧
        ∀ q : Date, q.day = dday → ds ≤ q → q ≤ de → res.2 ≤ q) ∧
      (res.1 = false → ∀ q : Date, q.day = dday → ds ≤ q → ¬ q ≤ de) := by
  intro fuel
  induction fuel with
  | zero =>
    intro p hp hinv res hres
    unfold schedLoop at hres
    split at hres
    · next h1 =>
      obtain rfl := (Option.some.inj hres)
      constructor
      · intro _
        refine ⟨hp, h1.1, h1.2, ?_⟩
        intro q hqd hdsq hqde
        by_cases hlt : monthIdx q < monthIdx p
        · exact absurd hqde (hinv q hqd hlt hdsq)
        · show p ≤ q
          rw [date_le_def]
          have hdq : p.day = q.day := by rw [hp, hqd]
          omega
      · intro hfalse
        exact Bool.noConfusion hfalse
    · split at hres
      · exact absurd hres (by simp)
      · next hcond hple =>
        obtain rfl := (Option.some.inj hres)
        constructor
        · intro htrue
          exact Bool.noConfusion htrue
        · intro _ q hqd hdsq hqde
          by_cases hlt : monthIdx q < monthIdx p
          · exact hinv q hqd hlt hdsq hqde
          · have hdq : q.day = p.day := by rw [hqd, hp]
            rw [date_le_def] at hqde
            rw [date_le_def] at hple
            omega
  | succ f ih =>
    intro p hp hinv res hres
    unfold schedLoop at hres
    split at hres
    · next h1 =>
      obtain rfl := (Option.some.inj hres)
      constructor
      · intro _
        refine ⟨hp, h1.1, h1.2, ?_⟩
        intro q hqd hdsq hqde
        by_cases hlt : monthIdx q < monthIdx p
        · exact absurd hqde (hinv q hqd hlt hdsq)
        · show p ≤ q
          rw [date_le_def]
          have hdq : p.day = q.day := by rw [hp, hqd]
          omega
      · intro hfalse
        exact Bool.noConfusion hfalse
    · split at hres
      · next hcond hple =>
        have hp' : (addMonths p 1).day = dday := by
          rw [addMonths_day p 1 (by omega)]
          exact hp
        have hinv' : ∀ q : Date, q.day = dday →
            monthIdx q < monthIdx (addMonths p 1) → ds ≤ q → ¬ q ≤ de := by
          intro q hqd hqlt hdsq hqde
          rw [monthIdx_addMonths] at hqlt
          by_cases hlt : monthIdx q < monthIdx p
          · exact hinv q hqd hlt hdsq hqde
          · have hnds : ¬ ds ≤ p := fun hds => hcond ⟨hds, hple⟩
            apply hnds
            have hdq : q.day = p.day := by rw [hqd, hp]
            rw [date_le_def] at hdsq ⊢
            omega
        exact ih (addMonths p 1) hp' hinv' res hres
      · next hcond hple =>
        obtain rfl := (Option.some.inj hres)
        constructor
        · intro htrue
          exact Bool.noConfusion htrue
        · intro _ q hqd hdsq hqde
          by_cases hlt : monthIdx q < monthIdx p
          · exact hinv q hqd hlt hdsq hqde
          · have hdq : q.day = p.day := by rw [hqd, hp]
            rw [date_le_def] at hqde
            rw [date_le_def] at hple
            omega

theorem monthIdx_start (ds : Date) (iday : Int) :
    monthIdx ⟨ds.year, ds.month, iday⟩ = monthIdx ds := rfl

/-- C10: the month-advancing search always terminates: the candidate
gains exactly one month per iteration while the loop guard keeps it at
or below the end date, so the fuel chosen from the month distance is
never exhausted and `is_investment_day_valid` always returns a
flag-date pair. -/
theorem c10_termination (iday : Int) (ds de : Date)
    (h1 : 1 ≤ iday) (h2 : iday ≤ 28) (h3 : ds ≤ de) :
    ∃ res : Bool × Date, is_investment_day_valid iday ds de = some res := by
  cases hres : is_investment_day_valid iday ds de with
  | some res => exact ⟨res, rfl⟩
  | none =>
    exfalso
    unfold is_investment_day_valid at hres
    refine schedLoop_isSome ds de _ _ ?_ hres
    show monthIdx de - monthIdx ds < (((monthIdx de - monthIdx ds).toNat + 1 : Nat) : Int)
    omega

/-- C6 (amended): for an investment day between 1 and 28 and a range
with start at or before end, the scheduler yields the first date with
that day-of-month at or after the start date whenever one lies inside
the range, and it signals `InvalidScheduleError` exactly when no date
with that day-of-month lies inside the range; in particular, for start
Jan 20, end Feb 20 and day 25 it does not fail but starts at Jan 25
(the occurrence in the start month is after the start date), while a
start of Jan 26 in the same range does fail. -/
theorem c6_day_of_month (iday : Int) (ds de : Date)
    (h1 : 1 ≤ iday) (h2 : iday ≤ 28) (h3 : ds ≤ de) :
    (∀ p : Date, scheduleStartDate iday ds de = Except.ok p →
      p.day = iday ∧ ds ≤ p ∧ p ≤ de ∧
      ∀ q : Date, q.day = iday → ds ≤ q → q ≤ de → p ≤ q) ∧
    (scheduleStartDate iday ds de = Except.error ScheduleError.invalidSchedule ↔
      ∀ q : Date, q.day = iday → ds ≤ q → ¬ q ≤ de) := by
  have hinv0 : ∀ q : Date, q.day = iday →
      monthIdx q < monthIdx ⟨ds.year, ds.month, iday⟩ → ds ≤ q → ¬ q ≤ de := by
    intro q _ hlt hdsq _
    exfalso
    have hlt2 : monthIdx q < monthIdx ds := hlt
    rw [date_le_def] at hdsq
    omega
  cases hres : is_investment_day_valid iday ds de with
  | none =>
    exfalso
    unfold is_investment_day_valid at hres
    refine schedLoop_isSome ds de _ _ ?_ hres
    show monthIdx de - monthIdx ds < (((monthIdx de - monthIdx ds).toNat + 1 : Nat) : Int)
    omega
  | some res =>
    have hchar := schedLoop_char ds de iday h2 _ ⟨ds.year, ds.month, iday⟩ rfl hinv0 res hres
    cases res with
    | mk b p =>
      cases b with
      | true =>
        have hok : scheduleStartDate iday ds de = Except.ok p := by
          unfold scheduleStartDate
          rw [hres]
        obtain ⟨hpd, hdsp, hpde, hmin⟩ := hchar.1 rfl
        constructor
        · intro p' hp'
          rw [hok] at hp'
          obtain rfl := (Except.ok.inj hp')
          exact ⟨hpd, hdsp, hpde, hmin⟩
        · constructor
          · intro herr
            rw [hok] at herr
            exact absurd herr (by simp)
          · intro hno
            exact absurd hpde (hno p hpd hdsp)
      | false =>
        have herr : scheduleStartDate iday ds de = Except.error ScheduleError.invalidSchedule := by
          unfold scheduleStartDate
          rw [hres]
        constructor
        · intro p' hp'
          rw [herr] at hp'
          exact absurd hp' (by simp)
        · exact ⟨fun _ => hchar.2 rfl, fun _ => herr⟩

/-- Counterexample to C6 as stated: with start Jan 20, end Feb 20 and
day 25 the scheduler does not fail; Jan 25 lies inside the range and is
returned as the start date. -/
theorem c6_counterexample :
    scheduleStartDate 25 ⟨2025, 1, 20⟩ ⟨2025, 2, 20⟩ = Except.ok ⟨2025, 1, 25⟩ ∧
    scheduleStartDate 25 ⟨2025, 1, 20⟩ ⟨2025, 2, 20⟩ ≠
      Except.error ScheduleError.invalidSchedule :=
  ⟨by decide, by decide⟩

/-- Witness for the amended C6 at the spec second example: day 15 in
January through March starts at Jan 15. -/
theorem c6_witness :
    ((1 : Int) ≤ 15 ∧ (15 : Int) ≤ 28 ∧ (⟨2025, 1, 1⟩ : Date) ≤ ⟨2025, 3, 31⟩) ∧
    ((∀ p : Date, scheduleStartDate 15 ⟨2025, 1, 1⟩ ⟨2025, 3, 31⟩ = Except.ok p →
      p.day = 15 ∧ (⟨2025, 1, 1⟩ : Date) ≤ p ∧ p ≤ ⟨2025, 3, 31⟩ ∧
      ∀ q : Date, q.day = 15 → (⟨2025, 1, 1⟩ : Date) ≤ q → q ≤ ⟨2025, 3, 31⟩ → p ≤ q) ∧
    (scheduleStartDate 15 ⟨2025, 1, 1⟩ ⟨2025, 3, 31⟩ =
        Except.error ScheduleError.invalidSchedule ↔
      ∀ q : Date, q.day = 15 → (⟨2025, 1, 1⟩ : Date) ≤ q → ¬ q ≤ ⟨2025, 3, 31⟩)) :=
  ⟨⟨by decide, by decide, by decide⟩,
    c6_day_of_month 15 ⟨2025, 1, 1⟩ ⟨2025, 3, 31⟩ (by decide) (by decide) (by decide)⟩

/-- Evaluation of the two schedule examples: day 15 in January through
March starts at Jan 15; day 25 with start Jan 26 and end Feb 20 fails,
because the only candidate, Feb 25, is past the end. -/
theorem sched_examples :
    scheduleStartDate 15 ⟨2025, 1, 1⟩ ⟨2025, 3, 31⟩ = Except.ok ⟨2025, 1, 15⟩ ∧
    scheduleStartDate 25 ⟨2025, 1, 26⟩ ⟨2025, 2, 20⟩ =
      Except.error ScheduleError.invalidSchedule :=
  ⟨by decide, by decide⟩

/-- Witness for C10 at concrete inputs. -/
theorem c10_witness :
    ((1 : Int) ≤ 10 ∧ (10 : Int) ≤ 28 ∧ (⟨2025, 1, 20⟩ : Date) ≤ ⟨2025, 2, 20⟩) ∧
    ∃ res : Bool × Date, is_investment_day_valid 10 ⟨2025, 1, 20⟩ ⟨2025, 2, 20⟩ = some res :=
  ⟨⟨by decide, by decide, by decide⟩,
    c10_termination 10 ⟨2025, 1, 20⟩ ⟨2025, 2, 20⟩ (by decide) (by decide) (by decide)⟩
